import Mathlib

/-!
Verification development for the isometric "digital twin" scene renderer and
its interaction layer (`src/frontend/src/components/VisualTwin/VisualTwin.tsx`).

The source performs its geometry in JavaScript floating point, with the single
irrational constant `Math.cos(Math.PI / 6) = √3 / 2` (the isometric angle;
`Math.sin(Math.PI / 6) = 1 / 2` is rational).  We embed the computation in the
quadratic extension ℚ[√3], represented as pairs `a + b·√3` of rationals: all
coordinates produced by the component live in this ring, arithmetic is exact
and computable, and comparisons are decidable.  The camera's `zoomLevel` is
kept in ℚ (it is only ever multiplied by rational factors from 1).

Mouse client coordinates are modelled as canvas coordinates (the canvas
displayed at its natural size, so the `canvas.width / rect.width` factor in
the handlers is 1 and `rect.left = rect.top = 0`).
-/

/-- An element `a + b·√3` of ℚ[√3]. -/
@[ext] structure Q3 where
  a : ℚ
  b : ℚ
deriving DecidableEq, Repr

namespace Q3

def ofRat (q : ℚ) : Q3 := ⟨q, 0⟩

instance (n : Nat) : OfNat Q3 n := ⟨⟨(n : ℚ), 0⟩⟩

def add (x y : Q3) : Q3 := ⟨x.a + y.a, x.b + y.b⟩

def sub (x y : Q3) : Q3 := ⟨x.a - y.a, x.b - y.b⟩

def neg (x : Q3) : Q3 := ⟨-x.a, -x.b⟩

def mul (x y : Q3) : Q3 := ⟨x.a * y.a + 3 * x.b * y.b, x.a * y.b + x.b * y.a⟩

/-- Multiplicative inverse: `(a + b√3)⁻¹ = (a − b√3) / (a² − 3b²)`.
The denominator vanishes only at 0 (√3 is irrational); we return 0 there,
matching the `x / 0 = 0` convention of the ambient field. -/
def inv (x : Q3) : Q3 :=
  let d := x.a * x.a - 3 * (x.b * x.b)
  if d = 0 then ⟨0, 0⟩ else ⟨x.a / d, -x.b / d⟩

def div (x y : Q3) : Q3 := mul x (inv y)

instance : Add Q3 := ⟨add⟩
instance : Sub Q3 := ⟨sub⟩
instance : Neg Q3 := ⟨neg⟩
instance : Mul Q3 := ⟨mul⟩
instance : Div Q3 := ⟨div⟩

/-- Decides `0 < a + b·√3` by sign analysis of the two components. -/
def posB (x : Q3) : Bool :=
  if 0 ≤ x.a then
    if 0 ≤ x.b then decide (0 < x.a) || decide (0 < x.b)
    else decide (3 * (x.b * x.b) < x.a * x.a)
  else
    if 0 ≤ x.b then decide (x.a * x.a < 3 * (x.b * x.b))
    else false

/-- Decides `x < y` in ℚ[√3]; this is the strict order the source's
floating-point `<` / `>` comparisons compute (exactly, in our model). -/
def ltB (x y : Q3) : Bool := posB (sub y x)

/-- Interpretation of `a + b·√3` as a real number. -/
noncomputable def toReal (x : Q3) : ℝ := (x.a : ℝ) + (x.b : ℝ) * Real.sqrt 3

theorem toReal_add (x y : Q3) : (add x y).toReal = x.toReal + y.toReal := by
  simp only [toReal, add]
  push_cast
  ring

theorem toReal_sub (x y : Q3) : (sub x y).toReal = x.toReal - y.toReal := by
  simp only [toReal, sub]
  push_cast
  ring

theorem toReal_mul (x y : Q3) : (mul x y).toReal = x.toReal * y.toReal := by
  have h3 : Real.sqrt 3 * Real.sqrt 3 = 3 :=
    Real.mul_self_sqrt (by norm_num)
  simp only [toReal, mul]
  push_cast
  linear_combination (-(x.b : ℝ) * (y.b : ℝ)) * h3

theorem toReal_ofRat (q : ℚ) : (ofRat q).toReal = (q : ℝ) := by
  simp [toReal, ofRat]

/-- The sign test `posB` agrees with the real order: it decides
`0 < a + b·√3` exactly. -/
theorem posB_iff (x : Q3) : posB x = true ↔ 0 < x.toReal := by
  have hs : (0:ℝ) < Real.sqrt 3 := Real.sqrt_pos.mpr (by norm_num)
  have hss : Real.sqrt 3 * Real.sqrt 3 = 3 := Real.mul_self_sqrt (by norm_num)
  have hbs : ((x.b:ℝ) * Real.sqrt 3) * ((x.b:ℝ) * Real.sqrt 3)
      = 3 * ((x.b:ℝ) * (x.b:ℝ)) := by
    linear_combination ((x.b:ℝ) * (x.b:ℝ)) * hss
  have hA : ((0:ℝ) ≤ (x.a : ℝ)) ↔ 0 ≤ x.a := by exact_mod_cast Iff.rfl
  have hB : ((0:ℝ) ≤ (x.b : ℝ)) ↔ 0 ≤ x.b := by exact_mod_cast Iff.rfl
  by_cases ha : 0 ≤ x.a <;> by_cases hb : 0 ≤ x.b <;>
    simp only [posB, toReal, ha, hb, if_true, if_false, Bool.or_eq_true,
      decide_eq_true_eq, Bool.false_eq_true, false_iff]
  · have ha' : (0:ℝ) ≤ (x.a : ℝ) := hA.mpr ha
    have hb' : (0:ℝ) ≤ (x.b : ℝ) := hB.mpr hb
    constructor
    · rintro (h | h)
      · have h' : (0:ℝ) < (x.a : ℝ) := by exact_mod_cast h
        nlinarith
      · have h' : (0:ℝ) < (x.b : ℝ) := by exact_mod_cast h
        nlinarith
    · intro hpos
      by_contra hne
      push_neg at hne
      have h1 : x.a = 0 := le_antisymm hne.1 ha
      have h2 : x.b = 0 := le_antisymm hne.2 hb
      rw [h1, h2] at hpos
      norm_num at hpos
  · have ha' : (0:ℝ) ≤ (x.a : ℝ) := hA.mpr ha
    have hb' : (x.b : ℝ) < 0 := by
      push_neg at hb
      exact_mod_cast hb
    have h1 : (0:ℝ) < (x.a:ℝ) - (x.b:ℝ) * Real.sqrt 3 := by
      nlinarith [mul_pos (show (0:ℝ) < -(x.b:ℝ) by linarith) hs]
    constructor
    · intro h
      have h' : 3 * ((x.b:ℝ) * (x.b:ℝ)) < (x.a:ℝ) * (x.a:ℝ) := by exact_mod_cast h
      nlinarith [h', h1, hbs]
    · intro hpos
      have h' : 3 * ((x.b:ℝ) * (x.b:ℝ)) < (x.a:ℝ) * (x.a:ℝ) := by
        nlinarith [hpos, h1, hbs]
      exact_mod_cast h'
  · have ha' : (x.a : ℝ) < 0 := by
      push_neg at ha
      exact_mod_cast ha
    have hb' : (0:ℝ) ≤ (x.b : ℝ) := hB.mpr hb
    have h2 : (0:ℝ) < (x.b:ℝ) * Real.sqrt 3 - (x.a:ℝ) := by
      nlinarith [mul_nonneg hb' hs.le]
    constructor
    · intro h
      have h' : (x.a:ℝ) * (x.a:ℝ) < 3 * ((x.b:ℝ) * (x.b:ℝ)) := by exact_mod_cast h
      nlinarith [h', h2, hbs]
    · intro hpos
      have h' : (x.a:ℝ) * (x.a:ℝ) < 3 * ((x.b:ℝ) * (x.b:ℝ)) := by
        nlinarith [hpos, h2, hbs]
      exact_mod_cast h'
  · have ha' : (x.a : ℝ) < 0 := by
      push_neg at ha
      exact_mod_cast ha
    have hb' : (x.b : ℝ) < 0 := by
      push_neg at hb
      exact_mod_cast hb
    intro hpos
    nlinarith [mul_neg_of_neg_of_pos hb' hs]

/-- The comparison `ltB` decides the real strict order on ℚ[√3], i.e. the
order the source's floating-point comparisons approximate. -/
theorem ltB_iff (x y : Q3) : ltB x y = true ↔ x.toReal < y.toReal := by
  rw [ltB, posB_iff, toReal_sub, sub_pos]

end Q3

/-- A 2D point with coordinates in ℚ[√3] (screen/scene space). -/
@[ext] structure Pt where
  x : Q3
  y : Q3
deriving DecidableEq, Repr

/-- The fixed isometric angle cosine of the source: `cos(π/6) = √3/2`. -/
def cos30 : Q3 := ⟨0, 1/2⟩

/-- The isometric angle sine: `sin(π/6) = 1/2`. -/
def sin30 : Q3 := ⟨1/2, 0⟩

/-- Projection `toIsometric` from the source: projects a farm-space point (plus
elevation `z`) to the 2D isometric screen offset. -/
def toIsometric (x y z : Q3) : Pt :=
  ⟨(x - y) * cos30, (x + y) * sin30 - z⟩

/-- The crossing test of one polygon edge, from `isPointInPolygon`:
`((yi > point.y) !== (yj > point.y)) && (point.x < (xj−xi)·(point.y−yi)/(yj−yi) + xi)`
where `pi = polygon[i]` is the current vertex and `pj = polygon[j]` the
previous one. -/
def edgeTest (p pi pj : Pt) : Bool :=
  (Q3.ltB p.y pi.y != Q3.ltB p.y pj.y) &&
    Q3.ltB p.x ((pj.x - pi.x) * (p.y - pi.y) / (pj.y - pi.y) + pi.x)

/-- The `(polygon[i], polygon[j])` pairs visited by the source's loop
(`i` runs over the polygon, `j` is the previous index, starting at the
last vertex). -/
def edgePairs : List Pt → List (Pt × Pt)
  | [] => []
  | p :: ps => (p :: ps).zip ((p :: ps).getLastD p :: (p :: ps).dropLast)

/-- Even-odd ray-casting point-in-polygon test (`isPointInPolygon`). -/
def isPointInPolygon (point : Pt) (polygon : List Pt) : Bool :=
  (edgePairs polygon).foldl
    (fun inside e => if edgeTest point e.1 e.2 then !inside else inside) false

/-- A zone's farm-space position rectangle (`zone.position`). -/
structure Rect where
  x : ℚ
  y : ℚ
  width : ℚ
  height : ℚ
deriving DecidableEq, Repr

/-- A farm zone record (the fields the renderer reads). -/
structure Zone where
  id : String
  name : String
  health : ℚ
  soil_moisture : ℚ
  temperature : ℚ
  ph : ℚ
  position : Rect
deriving DecidableEq, Repr

/-- One entry of `zoneHitAreasRef`: the drawing center plus the four
absolute (camera-scope, centered) top-face corners. -/
structure HitArea where
  x : ℚ
  y : ℚ
  corners : List Pt
deriving DecidableEq, Repr

/-- The `zoneHitAreasRef` store, modelled as an insertion-ordered
association list with the semantics of a JavaScript `Map`. -/
abbrev HitMap := List (String × HitArea)

/-- JavaScript `Map.set`: overwrite in place when the key exists (iteration order
keeps the original position), append otherwise. -/
def mapSet (m : HitMap) (k : String) (v : HitArea) : HitMap :=
  match m with
  | [] => [(k, v)]
  | (k', v') :: rest =>
      if k' = k then (k, v) :: rest else (k', v') :: mapSet rest k v

/-- JavaScript `Map.get`: first (and, with unique keys, only) binding of `k`. -/
def mapLookup (m : HitMap) (k : String) : Option HitArea :=
  match m with
  | [] => none
  | (k', v') :: rest => if k' = k then some v' else mapLookup rest k

/-- Keys of the store, in iteration order. -/
def mapKeys (m : HitMap) : List String := m.map Prod.fst

/-- The hit-region side effect of `draw3DZone`: scale the zone's rectangle
(`scale = 0.8`, recentered by (−400, −300)), project the four top-face
corners at `zoneHeight = 30`, and translate them by the drawing center. -/
def draw3DZoneHit (zone : Zone) (centerX centerY : ℚ) : HitArea :=
  let scale : ℚ := 8/10
  let x := (zone.position.x - 400) * scale
  let y := (zone.position.y - 300) * scale
  let w := zone.position.width * scale
  let h := zone.position.height * scale
  let zh : Q3 := Q3.ofRat 30
  let topCorners : List Pt :=
    [ toIsometric (Q3.ofRat x) (Q3.ofRat y) zh
    , toIsometric (Q3.ofRat (x + w)) (Q3.ofRat y) zh
    , toIsometric (Q3.ofRat (x + w)) (Q3.ofRat (y + h)) zh
    , toIsometric (Q3.ofRat x) (Q3.ofRat (y + h)) zh ]
  { x := centerX
    y := centerY
    corners := topCorners.map fun c =>
      ⟨c.x + Q3.ofRat centerX, c.y + Q3.ofRat centerY⟩ }

/-- The hit-region effect of one frame of `renderScene`: every zone of the
snapshot writes its region into the store via `Map.set`.  Note the source
never clears `zoneHitAreasRef` before (or after) drawing. -/
def renderHitAreas (zones : List Zone) (m : HitMap) (cX cY : ℚ) : HitMap :=
  zones.foldl (fun acc z => mapSet acc z.id (draw3DZoneHit z cX cY)) m

/-- The mutable view state owned by the component. -/
structure ViewState where
  selectedZone : Option String
  hoveredZone : Option String
  zoomLevel : ℚ
  panOffset : Pt
  isDragging : Bool
  dragStart : Pt
  hitAreas : HitMap
deriving DecidableEq

/-- Inverse camera transform used by the hover and click handlers:
`adjusted = (mouse − panOffset) / zoomLevel`. -/
def screenToScene (zoom : ℚ) (pan : Pt) (p : Pt) : Pt :=
  ⟨(p.x - pan.x) / Q3.ofRat zoom, (p.y - pan.y) / Q3.ofRat zoom⟩

/-- Forward camera transform of `renderScene`
(`ctx.translate(panOffset); ctx.scale(zoomLevel)`):
scene point `p` is drawn at `zoomLevel·p + panOffset`. -/
def sceneToScreen (zoom : ℚ) (pan : Pt) (p : Pt) : Pt :=
  ⟨Q3.ofRat zoom * p.x + pan.x, Q3.ofRat zoom * p.y + pan.y⟩

/-- The `found` accumulation of the hover scan: iterate the regions in map
order, the last region containing the point wins. -/
def hitScan (p : Pt) (m : HitMap) : Option String :=
  m.foldl (fun acc e => if isPointInPolygon p e.2.corners then some e.1 else acc)
    none

def handleMouseDown (s : ViewState) (c : Pt) : ViewState :=
  { s with isDragging := true, dragStart := c }

def handleMouseMove (s : ViewState) (c : Pt) : ViewState :=
  if s.isDragging then
    { s with
      panOffset := ⟨s.panOffset.x + (c.x - s.dragStart.x),
                    s.panOffset.y + (c.y - s.dragStart.y)⟩
      dragStart := c }
  else
    { s with hoveredZone := hitScan (screenToScene s.zoomLevel s.panOffset c) s.hitAreas }

def handleMouseUp (s : ViewState) : ViewState :=
  { s with isDragging := false }

/-- Click handler `handleClick`: suppressed while dragging; otherwise camera-invert the
point and, for every region containing it (in map order), set the selected
zone and invoke `onZoneClick`.  Returns the new state together with the
list of callback invocations, in order. -/
def handleClick (s : ViewState) (c : Pt) : ViewState × List String :=
  if s.isDragging then (s, [])
  else
    let adj := screenToScene s.zoomLevel s.panOffset c
    s.hitAreas.foldl
      (fun acc e =>
        if isPointInPolygon adj e.2.corners then
          ({ acc.1 with selectedZone := some e.1 }, acc.2 ++ [e.1])
        else acc)
      (s, [])

/-- Wheel handler `handleWheel`: scale the zoom by 0.9 (scroll down) or 1.1 (scroll up)
and clamp to [0.5, 2]. -/
def handleWheel (s : ViewState) (deltaY : ℚ) : ViewState :=
  { s with
    zoomLevel := max (1/2) (min 2 (s.zoomLevel * (if 0 < deltaY then 9/10 else 11/10))) }

/-- Reset handler `handleReset`. -/
def handleReset (s : ViewState) : ViewState :=
  { s with
    zoomLevel := 1
    panOffset := ⟨Q3.ofRat 100, Q3.ofRat 50⟩
    selectedZone := none }

/-- The zoom-in button: `min(prev * 1.2, 2)`. -/
def zoomInBtn (s : ViewState) : ViewState :=
  { s with zoomLevel := min (s.zoomLevel * (12/10)) 2 }

/-- The zoom-out button: `max(prev / 1.2, 0.5)`. -/
def zoomOutBtn (s : ViewState) : ViewState :=
  { s with zoomLevel := max (s.zoomLevel / (12/10)) (1/2) }

/-- Hit-region effect of one frame, folded into the view state
(`width`, `height` are the canvas dimensions; the zone layer centers at
`(width/2, height·0.7)`). -/
def renderFrame (zones : List Zone) (width height : ℚ) (s : ViewState) : ViewState :=
  { s with hitAreas := renderHitAreas zones s.hitAreas (width / 2) (height * (7/10)) }

/-- The events the component routes. -/
inductive UiEvent where
  | down (c : Pt)
  | move (c : Pt)
  | up
  | click (c : Pt)
  | wheel (deltaY : ℚ)
  | reset
  | zoomInB
  | zoomOutB
  | frame (zones : List Zone) (width height : ℚ)
deriving DecidableEq

/-- Route one event, collecting callback invocations. -/
def dispatch (s : ViewState) : UiEvent → ViewState × List String
  | .down c => (handleMouseDown s c, [])
  | .move c => (handleMouseMove s c, [])
  | .up => (handleMouseUp s, [])
  | .click c => handleClick s c
  | .wheel d => (handleWheel s d, [])
  | .reset => (handleReset s, [])
  | .zoomInB => (zoomInBtn s, [])
  | .zoomOutB => (zoomOutBtn s, [])
  | .frame zs w h => (renderFrame zs w h s, [])

/-- Run a sequence of events, concatenating callback invocations. -/
def run (s : ViewState) (evts : List UiEvent) : ViewState × List String :=
  evts.foldl (fun acc e => ((dispatch acc.1 e).1, acc.2 ++ (dispatch acc.1 e).2)) (s, [])

/-- The component's initial state. -/
def initState : ViewState :=
  { selectedZone := none
    hoveredZone := none
    zoomLevel := 1
    panOffset := ⟨Q3.ofRat 100, Q3.ofRat 50⟩
    isDragging := false
    dragStart := ⟨Q3.ofRat 0, Q3.ofRat 0⟩
    hitAreas := [] }

/-- Zone "A" of the C1 scenario: farm-space rectangle (0, 0, 100, 100). -/
def zoneA : Zone :=
  { id := "A", name := "Zone A", health := 90, soil_moisture := 45
    temperature := 24, ph := 13/2
    position := { x := 0, y := 0, width := 100, height := 100 } }

/-- A zone with negative width and height (C8). -/
def zoneBad : Zone :=
  { id := "B", name := "Broken", health := 50, soil_moisture := 30
    temperature := 20, ph := 7
    position := { x := 0, y := 0, width := -10, height := -10 } }

/-- State after one frame rendering the single zone "A" on the normal
1000×700 canvas. -/
def stateA : ViewState := renderFrame [zoneA] 1000 700 initState

/-- Centroid of a four-corner hit region. -/
def quadCentroid (l : List Pt) : Pt :=
  match l with
  | [p1, p2, p3, p4] =>
      ⟨(p1.x + p2.x + p3.x + p4.x) / Q3.ofRat 4,
        (p1.y + p2.y + p3.y + p4.y) / Q3.ofRat 4⟩
  | _ => ⟨0, 0⟩

/-- The screen point over the centroid of zone "A"'s rendered top face:
the forward camera transform applied to the stored region's centroid. -/
def centroidClickA : Pt :=
  sceneToScreen stateA.zoomLevel stateA.panOffset
    (quadCentroid ((draw3DZoneHit zoneA 500 490).corners))

/-- Apply `n` wheel-up events (negative `deltaY`, factor 1.1) from the
initial state. -/
def wheelUpSeq : Nat → ViewState
  | 0 => initState
  | n + 1 => handleWheel (wheelUpSeq n) (-1)

/-- Apply `n` wheel-down events (positive `deltaY`, factor 0.9) from the
initial state. -/
def wheelDownSeq : Nat → ViewState
  | 0 => initState
  | n + 1 => handleWheel (wheelDownSeq n) 1

/-- The drag gesture of the C6 scenario: pointer-down at (50,50),
pointer-move to (80,70), pointer-up. -/
def dragTrace : List UiEvent :=
  [ .down ⟨Q3.ofRat 50, Q3.ofRat 50⟩
  , .move ⟨Q3.ofRat 80, Q3.ofRat 70⟩
  , .up ]

/-- Hit region produced for zone "A" on the normal canvas. -/
def regionA : HitArea := draw3DZoneHit zoneA 500 490

/-- A store still holding zone "A"'s region from an earlier frame. -/
def staleMap : HitMap := [("A", regionA)]

/-- A state in which some zone is hovered. -/
def hoverState : ViewState := { initState with hoveredZone := some "A" }

theorem Q3_add_def (x y : Q3) : x + y = ⟨x.a + y.a, x.b + y.b⟩ := rfl

theorem Q3_sub_def (x y : Q3) : x - y = ⟨x.a - y.a, x.b - y.b⟩ := rfl

theorem Q3_mul_def (x y : Q3) :
    x * y = ⟨x.a * y.a + 3 * x.b * y.b, x.a * y.b + x.b * y.a⟩ := rfl

theorem Q3_div_def (x y : Q3) : x / y = Q3.mul x (Q3.inv y) := rfl

theorem Q3_ofNat_def (n : Nat) : (OfNat.ofNat n : Q3) = ⟨(n : ℚ), 0⟩ := rfl

/-- Cancellation in ℚ[√3]: multiplying by a nonzero rational scalar and then
dividing by it is the identity. -/
theorem Q3_mul_div_cancel (z : ℚ) (hz : z ≠ 0) (v : Q3) :
    (Q3.ofRat z * v) / Q3.ofRat z = v := by
  have hzz : z * z - 3 * ((0:ℚ) * 0) ≠ 0 := by
    simpa using mul_ne_zero hz hz
  ext
  · simp only [Q3_div_def, Q3_mul_def, Q3.mul, Q3.inv, Q3.ofRat]
    rw [if_neg hzz]
    field_simp
  · simp only [Q3_div_def, Q3_mul_def, Q3.mul, Q3.inv, Q3.ofRat]
    rw [if_neg hzz]
    field_simp

theorem Q3_add_sub_cancel (u t : Q3) : u + t - t = u := by
  ext <;> simp [Q3_add_def, Q3_sub_def]

/-- C9. The isometric projection is a pure function of its inputs, computing
`((x − y)·cos 30°, (x + y)·sin 30° − z)`; the elevation `z` only shifts the
vertical screen coordinate, and the embedded constants `cos30`, `sin30` are
exactly `cos(π/6)` and `sin(π/6)`. -/
theorem C9_isometric_projection :
    ∀ x y z : Q3,
      toIsometric x y z = ⟨(x - y) * cos30, (x + y) * sin30 - z⟩
      ∧ (toIsometric x y z).x = (toIsometric x y 0).x
      ∧ (toIsometric x y z).y = (toIsometric x y 0).y - z
      ∧ cos30.toReal = Real.cos (Real.pi / 6)
      ∧ sin30.toReal = Real.sin (Real.pi / 6) := by
  intro x y z
  refine ⟨rfl, rfl, ?_, ?_, ?_⟩
  · ext <;> simp [toIsometric, Q3_sub_def, Q3_ofNat_def]
  · rw [Real.cos_pi_div_six]
    simp [Q3.toReal, cos30]
    ring
  · rw [Real.sin_pi_div_six]
    simp [Q3.toReal, sin30]

/-- C3. Inverse-transform round trip: for any zoom in [0.5, 2] and any pan,
`screenToScene` is a left inverse of the forward camera transform
`sceneToScreen` (exactly, in our exact-arithmetic model). -/
theorem C3_camera_round_trip :
    ∀ (zoom : ℚ) (pan p : Pt), 1/2 ≤ zoom → zoom ≤ 2 →
      screenToScene zoom pan (sceneToScreen zoom pan p) = p := by
  intro zoom pan p h1 _h2
  have hz : zoom ≠ 0 := by positivity
  simp only [screenToScene, sceneToScreen]
  rw [Q3_add_sub_cancel, Q3_mul_div_cancel zoom hz,
    Q3_add_sub_cancel, Q3_mul_div_cancel zoom hz]

/-- Witness for C3 at zoom 1, pan (100,50), p = (3,4). -/
theorem C3_camera_round_trip_witness :
    screenToScene 1 ⟨Q3.ofRat 100, Q3.ofRat 50⟩
        (sceneToScreen 1 ⟨Q3.ofRat 100, Q3.ofRat 50⟩ ⟨Q3.ofRat 3, Q3.ofRat 4⟩)
      = ⟨Q3.ofRat 3, Q3.ofRat 4⟩ :=
  C3_camera_round_trip 1 ⟨Q3.ofRat 100, Q3.ofRat 50⟩ ⟨Q3.ofRat 3, Q3.ofRat 4⟩
    (by norm_num) (by norm_num)

/-- Counterexample to C7 as stated: `handleReset` does not touch
`hoveredZone`, so from a state hovering zone "A" the hover survives the
reset, contradicting "hoveredZoneId = none" after reset. -/
theorem C7_counterexample :
    (handleReset hoverState).hoveredZone = some "A"
    ∧ (handleReset hoverState).hoveredZone ≠ none := by
  exact ⟨rfl, by simp [handleReset, hoverState]⟩

/-- C7 (amended). After `reset()` the state satisfies zoomLevel = 1,
panOffset = (100,50) and selectedZoneId = none, for every prior state; the
hover component, however, is left unchanged (it is not cleared). -/
theorem C7_reset_amended :
    ∀ s : ViewState,
      (handleReset s).zoomLevel = 1
      ∧ (handleReset s).panOffset = ⟨Q3.ofRat 100, Q3.ofRat 50⟩
      ∧ (handleReset s).selectedZone = none
      ∧ (handleReset s).hoveredZone = s.hoveredZone := by
  intro s
  exact ⟨rfl, rfl, rfl, rfl⟩

/-- C10. The even-odd point-in-polygon test is total, and whenever the
crossing guard `(yi > point.y) !== (yj > point.y)` holds, the two vertex
ordinates differ, so the division's denominator `yj − yi` is nonzero. -/
theorem C10_point_in_polygon_safety :
    (∀ p pi pj : Pt, Q3.ltB p.y pi.y ≠ Q3.ltB p.y pj.y →
        pi.y ≠ pj.y ∧ pj.y - pi.y ≠ 0)
    ∧ (∀ (point : Pt) (polygon : List Pt), ∃ b : Bool, isPointInPolygon point polygon = b) := by
  constructor
  · intro p pi pj h
    have hne : pi.y ≠ pj.y := fun he => h (by rw [he])
    refine ⟨hne, fun hz => hne ?_⟩
    have h1 : pj.y.a - pi.y.a = 0 ∧ pj.y.b - pi.y.b = 0 := by
      have := congrArg Q3.a hz
      have := congrArg Q3.b hz
      constructor <;> simpa [Q3_sub_def, Q3_ofNat_def] using ‹_›
    ext
    · linarith [h1.1]
    · linarith [h1.2]
  · intro point polygon
    exact ⟨_, rfl⟩

/-- Witness for C10 at `p.y = 0`, `pi.y = 1`, `pj.y = 0` (the guard holds
there, and indeed the ordinates differ). -/
theorem C10_point_in_polygon_safety_witness :
    (⟨⟨0,0⟩, ⟨1,0⟩⟩ : Pt).y ≠ (⟨⟨0,0⟩, ⟨0,0⟩⟩ : Pt).y
    ∧ (⟨⟨0,0⟩, ⟨0,0⟩⟩ : Pt).y - (⟨⟨0,0⟩, ⟨1,0⟩⟩ : Pt).y ≠ 0 :=
  C10_point_in_polygon_safety.1 ⟨⟨0,0⟩, ⟨0,0⟩⟩ ⟨⟨0,0⟩, ⟨1,0⟩⟩ ⟨⟨0,0⟩, ⟨0,0⟩⟩
    (by norm_num [Q3.ltB, Q3.posB, Q3.sub])

/-- C6. The drag gesture down(50,50) → move(80,70) → up changes `panOffset`
by exactly (+30, +20) (incremental delta with the anchor rebased), leaves
`selectedZone` and `hoveredZone` untouched, and emits no zone-selection
callback, whatever hit regions the state holds. -/
theorem C6_drag_gesture :
    ∀ s : ViewState,
      (run s dragTrace).1.panOffset.x = s.panOffset.x + Q3.ofRat 30
      ∧ (run s dragTrace).1.panOffset.y = s.panOffset.y + Q3.ofRat 20
      ∧ (run s dragTrace).1.selectedZone = s.selectedZone
      ∧ (run s dragTrace).1.hoveredZone = s.hoveredZone
      ∧ (run s dragTrace).2 = [] := by
  intro s
  have h30 : (Q3.ofRat 80 - Q3.ofRat 50 : Q3) = Q3.ofRat 30 := by
    simp [Q3_sub_def, Q3.ofRat]
    norm_num
  have h20 : (Q3.ofRat 70 - Q3.ofRat 50 : Q3) = Q3.ofRat 20 := by
    simp [Q3_sub_def, Q3.ofRat]
    norm_num
  simp [run, dragTrace, dispatch, handleMouseDown, handleMouseMove, handleMouseUp,
    List.foldl, h30, h20]

theorem mapLookup_set_self (m : HitMap) (k : String) (v : HitArea) :
    mapLookup (mapSet m k v) k = some v := by
  induction m with
  | nil => simp [mapSet, mapLookup]
  | cons e rest ih =>
      obtain ⟨k', v'⟩ := e
      by_cases h : k' = k
      · simp [mapSet, mapLookup, h]
      · simp [mapSet, mapLookup, h, ih]

theorem mapLookup_set_other (m : HitMap) (k : String) (v : HitArea)
    (k2 : String) (h : k2 ≠ k) :
    mapLookup (mapSet m k v) k2 = mapLookup m k2 := by
  induction m with
  | nil => simp [mapSet, mapLookup, Ne.symm h]
  | cons e rest ih =>
      obtain ⟨k', v'⟩ := e
      by_cases hk : k' = k
      · subst hk
        simp [mapSet, mapLookup, Ne.symm h]
      · by_cases hk2 : k' = k2
        · subst hk2
          simp [mapSet, mapLookup, hk]
        · simp [mapSet, mapLookup, hk, hk2, ih]

theorem mapLookup_set_ne_none (m : HitMap) (k k2 : String) (v : HitArea)
    (h : mapLookup m k ≠ none) :
    mapLookup (mapSet m k2 v) k ≠ none := by
  by_cases hk : k = k2
  · subst hk
    simp [mapLookup_set_self]
  · rw [mapLookup_set_other m k2 v k hk]
    exact h

theorem renderHitAreas_ne_none (zones : List Zone) (m : HitMap) (cX cY : ℚ)
    (k : String) (h : mapLookup m k ≠ none) :
    mapLookup (renderHitAreas zones m cX cY) k ≠ none := by
  induction zones generalizing m with
  | nil => exact h
  | cons z zs ih =>
      have hstep : renderHitAreas (z :: zs) m cX cY
          = renderHitAreas zs (mapSet m z.id (draw3DZoneHit z cX cY)) cX cY := rfl
      rw [hstep]
      exact ih _ (mapLookup_set_ne_none m k z.id _ h)

theorem renderHitAreas_mem_ne_none (zones : List Zone) (m : HitMap) (cX cY : ℚ)
    (z : Zone) (hz : z ∈ zones) :
    mapLookup (renderHitAreas zones m cX cY) z.id ≠ none := by
  induction zones generalizing m with
  | nil => cases hz
  | cons a zs ih =>
      have hstep : renderHitAreas (a :: zs) m cX cY
          = renderHitAreas zs (mapSet m a.id (draw3DZoneHit a cX cY)) cX cY := rfl
      rw [hstep]
      rcases List.mem_cons.mp hz with he | hm
      · subst he
        exact renderHitAreas_ne_none zs _ cX cY z.id
          (by simp [mapLookup_set_self])
      · exact ih _ hm

theorem renderHitAreas_not_drawn (zones : List Zone) (m : HitMap) (cX cY : ℚ)
    (k : String) (h : k ∉ zones.map Zone.id) :
    mapLookup (renderHitAreas zones m cX cY) k = mapLookup m k := by
  induction zones generalizing m with
  | nil => rfl
  | cons z zs ih =>
      have hstep : renderHitAreas (z :: zs) m cX cY
          = renderHitAreas zs (mapSet m z.id (draw3DZoneHit z cX cY)) cX cY := rfl
      rw [hstep]
      simp only [List.map_cons, List.mem_cons] at h
      push_neg at h
      rw [ih _ h.2, mapLookup_set_other m z.id _ k h.1]

theorem mapKeys_set (m : HitMap) (k : String) (v : HitArea) :
    mapKeys (mapSet m k v)
      = if k ∈ mapKeys m then mapKeys m else mapKeys m ++ [k] := by
  induction m with
  | nil => simp [mapSet, mapKeys]
  | cons e rest ih =>
      obtain ⟨k', v'⟩ := e
      by_cases h : k' = k
      · subst h
        simp [mapSet, mapKeys]
      · have hne : ¬ k = k' := fun he => h he.symm
        simp only [mapSet, if_neg h, mapKeys, List.map_cons] at ih ⊢
        rw [ih]
        by_cases hmem : k ∈ rest.map Prod.fst
        · simp [hmem, hne]
        · simp [hmem, hne]

theorem mapKeys_set_nodup (m : HitMap) (k : String) (v : HitArea)
    (h : (mapKeys m).Nodup) : (mapKeys (mapSet m k v)).Nodup := by
  rw [mapKeys_set]
  by_cases hmem : k ∈ mapKeys m
  · simpa [hmem] using h
  · simp only [hmem, if_false]
    exact List.nodup_append.mpr
      ⟨h, List.nodup_singleton k, by simpa [List.disjoint_singleton] using hmem⟩

theorem renderHitAreas_nodup (zones : List Zone) (m : HitMap) (cX cY : ℚ)
    (h : (mapKeys m).Nodup) :
    (mapKeys (renderHitAreas zones m cX cY)).Nodup := by
  induction zones generalizing m with
  | nil => exact h
  | cons z zs ih =>
      have hstep : renderHitAreas (z :: zs) m cX cY
          = renderHitAreas zs (mapSet m z.id (draw3DZoneHit z cX cY)) cX cY := rfl
      rw [hstep]
      exact ih _ (mapKeys_set_nodup m z.id _ h)

/-- Counterexample to C2 as stated: `zoneHitAreasRef` is never cleared, so
after a frame whose snapshot draws no zones at all, the stale region of the
removed zone "A" still exists — there is a hit region for an id not drawn
in the latest frame. -/
theorem C2_counterexample :
    mapLookup (renderHitAreas [] staleMap 500 490) "A" = some regionA
    ∧ mapLookup (renderHitAreas [] staleMap 500 490) "A" ≠ none := by
  constructor
  · simp [renderHitAreas, staleMap, mapLookup]
  · simp [renderHitAreas, staleMap, mapLookup]

/-- C2 (amended). Each frame writes exactly one hit region per drawn zone
id (`Map.set` overwrites; if the store's keys are duplicate-free they stay
duplicate-free, and every drawn zone's id is present afterwards), but the
store is never cleared: regions of zone ids absent from the current
snapshot persist unchanged across the frame instead of being removed. -/
theorem C2_hit_region_lifecycle :
    ∀ (zones : List Zone) (m : HitMap) (cX cY : ℚ),
      ((mapKeys m).Nodup → (mapKeys (renderHitAreas zones m cX cY)).Nodup)
      ∧ (∀ z ∈ zones, mapLookup (renderHitAreas zones m cX cY) z.id ≠ none)
      ∧ (∀ k, k ∉ zones.map Zone.id →
          mapLookup (renderHitAreas zones m cX cY) k = mapLookup m k) := by
  intro zones m cX cY
  exact ⟨renderHitAreas_nodup zones m cX cY,
    fun z hz => renderHitAreas_mem_ne_none zones m cX cY z hz,
    fun k hk => renderHitAreas_not_drawn zones m cX cY k hk⟩

/-- Witness for C2's amended statement on the concrete one-zone frame. -/
theorem C2_hit_region_lifecycle_witness :
    (mapKeys (renderHitAreas [zoneA] [] 500 490)).Nodup
    ∧ mapLookup (renderHitAreas [zoneA] [] 500 490) zoneA.id ≠ none :=
  ⟨(C2_hit_region_lifecycle [zoneA] [] 500 490).1 (by simp [mapKeys]),
    (C2_hit_region_lifecycle [zoneA] [] 500 490).2.1 zoneA (by simp)⟩

/-- Counterexample to C8 as stated: a zone whose rectangle has negative
width and height is not skipped — `draw3DZone` records its hit region
unconditionally, so after the frame a region for it exists. -/
theorem C8_counterexample :
    mapLookup (renderHitAreas [zoneBad] [] 500 490) "B" ≠ none := by
  simp [renderHitAreas, mapSet, mapLookup, zoneBad]

/-- C8 (amended). The render performs no dimension validation at all:
every zone of the snapshot — whatever the sign of its width or height —
is processed and receives a hit region, and the frame always completes
(the fold is total and touches every zone). -/
theorem C8_no_dimension_validation :
    ∀ (zones : List Zone) (m : HitMap) (cX cY : ℚ) (z : Zone), z ∈ zones →
      mapLookup (renderHitAreas zones m cX cY) z.id ≠ none := by
  intro zones m cX cY z hz
  exact renderHitAreas_mem_ne_none zones m cX cY z hz

/-- Witness for C8's amended statement at the negative-dimension zone. -/
theorem C8_no_dimension_validation_witness :
    mapLookup (renderHitAreas [zoneBad] [] 500 490) zoneBad.id ≠ none :=
  C8_no_dimension_validation [zoneBad] [] 500 490 zoneBad (by simp)

theorem handleClick_fold_zoom (adj : Pt) :
    ∀ (m : HitMap) (p : ViewState × List String),
      ((m.foldl
          (fun acc e =>
            if isPointInPolygon adj e.2.corners then
              ({ acc.1 with selectedZone := some e.1 }, acc.2 ++ [e.1])
            else acc) p).1).zoomLevel = p.1.zoomLevel := by
  intro m
  induction m with
  | nil => intro p; rfl
  | cons e rest ih =>
      intro p
      rw [List.foldl_cons, ih]
      by_cases h : isPointInPolygon adj e.2.corners
      · simp [h]
      · simp [h]

theorem handleClick_zoom (s : ViewState) (c : Pt) :
    (handleClick s c).1.zoomLevel = s.zoomLevel := by
  unfold handleClick
  by_cases h : s.isDragging
  · simp [h]
  · simp only [h, Bool.false_eq_true, if_false]
    exact handleClick_fold_zoom _ s.hitAreas (s, [])

theorem dispatch_zoom_bounds (s : ViewState) (e : UiEvent)
    (h1 : 1/2 ≤ s.zoomLevel) (h2 : s.zoomLevel ≤ 2) :
    1/2 ≤ (dispatch s e).1.zoomLevel ∧ (dispatch s e).1.zoomLevel ≤ 2 := by
  cases e with
  | down c => exact ⟨h1, h2⟩
  | move c =>
      simp only [dispatch, handleMouseMove]
      by_cases h : s.isDragging
      · simp only [h, if_true]
        exact ⟨h1, h2⟩
      · simp only [h, Bool.false_eq_true, if_false]
        exact ⟨h1, h2⟩
  | up => exact ⟨h1, h2⟩
  | click c =>
      rw [show (dispatch s (.click c)).1 = (handleClick s c).1 from rfl]
      rw [handleClick_zoom]
      exact ⟨h1, h2⟩
  | wheel d =>
      simp only [dispatch, handleWheel]
      constructor
      · exact le_max_left _ _
      · exact max_le (by norm_num) (min_le_left _ _)
  | reset => constructor <;> norm_num [dispatch, handleReset]
  | zoomInB =>
      simp only [dispatch, zoomInBtn]
      constructor
      · exact le_min (by linarith) (by norm_num)
      · exact min_le_right _ _
  | zoomOutB =>
      simp only [dispatch, zoomOutBtn]
      constructor
      · exact le_max_right _ _
      · refine max_le ?_ (by norm_num)
        rw [div_le_iff₀ (by norm_num)]
        linarith
  | frame zs w h => exact ⟨h1, h2⟩

theorem run_zoom_bounds (evts : List UiEvent) :
    ∀ (p : ViewState × List String), 1/2 ≤ p.1.zoomLevel → p.1.zoomLevel ≤ 2 →
      1/2 ≤ (evts.foldl
          (fun acc e => ((dispatch acc.1 e).1, acc.2 ++ (dispatch acc.1 e).2)) p).1.zoomLevel
      ∧ (evts.foldl
          (fun acc e => ((dispatch acc.1 e).1, acc.2 ++ (dispatch acc.1 e).2)) p).1.zoomLevel ≤ 2 := by
  induction evts with
  | nil => intro p h1 h2; exact ⟨h1, h2⟩
  | cons e rest ih =>
      intro p h1 h2
      rw [List.foldl_cons]
      have hb := dispatch_zoom_bounds p.1 e h1 h2
      exact ih _ hb.1 hb.2

/-- C4. The zoom clamp invariant 0.5 ≤ zoomLevel ≤ 2 holds after any
sequence of events (zoom buttons, wheel, reset — and every other event,
none of which touches the zoom) starting from the initial state, so a
degenerate zero-scale camera transform is unreachable. -/
theorem C4_zoom_invariant :
    ∀ evts : List UiEvent,
      1/2 ≤ (run initState evts).1.zoomLevel
      ∧ (run initState evts).1.zoomLevel ≤ 2 := by
  intro evts
  exact run_zoom_bounds evts (initState, []) (by norm_num [initState]) (by norm_num [initState])

theorem wheelUpSeq_formula :
    ∀ n : Nat, (wheelUpSeq n).zoomLevel = min 2 ((11/10 : ℚ) ^ n) := by
  intro n
  induction n with
  | zero => norm_num [wheelUpSeq, initState]
  | succ n ih =>
      have hfac : (if (0:ℚ) < -1 then (9/10 : ℚ) else 11/10) = 11/10 := by norm_num
      have hstep : (wheelUpSeq (n + 1)).zoomLevel
          = max (1/2) (min 2 ((wheelUpSeq n).zoomLevel * (11/10))) := by
        simp only [wheelUpSeq, handleWheel, hfac]
      rw [hstep, ih]
      have hu1 : (1:ℚ) ≤ (11/10 : ℚ) ^ n := one_le_pow₀ (by norm_num)
      by_cases h : (11/10 : ℚ) ^ n ≤ 2
      · rw [min_eq_right h, ← pow_succ]
        rw [max_eq_right]
        exact le_min (by norm_num)
          (le_trans (by norm_num) (one_le_pow₀ (by norm_num)))
      · push_neg at h
        rw [min_eq_left h.le]
        have h2 : (2:ℚ) ≤ (11/10 : ℚ) ^ (n + 1) := by
          rw [pow_succ]
          calc (2:ℚ) ≤ (11/10 : ℚ) ^ n := h.le
            _ ≤ (11/10 : ℚ) ^ n * (11/10) :=
                le_mul_of_one_le_right (by positivity) (by norm_num)
        rw [min_eq_left h2]
        norm_num

theorem wheelDownSeq_formula :
    ∀ n : Nat, (wheelDownSeq n).zoomLevel = max (1/2) ((9/10 : ℚ) ^ n) := by
  intro n
  induction n with
  | zero => norm_num [wheelDownSeq, initState]
  | succ n ih =>
      have hfac : (if (0:ℚ) < 1 then (9/10 : ℚ) else 11/10) = 9/10 := by norm_num
      have hstep : (wheelDownSeq (n + 1)).zoomLevel
          = max (1/2) (min 2 ((wheelDownSeq n).zoomLevel * (9/10))) := by
        simp only [wheelDownSeq, handleWheel, hfac]
      rw [hstep, ih]
      have hd1 : (9/10 : ℚ) ^ n ≤ 1 := pow_le_one₀ (by norm_num) (by norm_num)
      have hzle : max (1/2 : ℚ) ((9/10 : ℚ) ^ n) ≤ 1 := max_le (by norm_num) hd1
      have hprod : max (1/2 : ℚ) ((9/10 : ℚ) ^ n) * (9/10) ≤ 2 := by nlinarith
      rw [min_eq_right hprod]
      by_cases h : (1/2 : ℚ) ≤ (9/10 : ℚ) ^ n
      · rw [max_eq_right h, ← pow_succ]
      · push_neg at h
        rw [max_eq_left h.le]
        have h9 : (9/10 : ℚ) ^ (n + 1) ≤ 1/2 := by
          rw [pow_succ]
          calc (9/10 : ℚ) ^ n * (9/10) ≤ (9/10 : ℚ) ^ n * 1 :=
                mul_le_mul_of_nonneg_left (by norm_num) (by positivity)
            _ = (9/10 : ℚ) ^ n := mul_one _
            _ ≤ 1/2 := h.le
        rw [max_eq_left h9]
        norm_num

/-- C5. Starting from zoomLevel = 1, `n` wheel-up events yield
`min(2, 1.1^n)` and `n` wheel-down events yield `max(0.5, 0.9^n)` (each
step multiplies by 1.1 resp. 0.9 and clamps to [0.5, 2]). -/
theorem C5_wheel_zoom_formula :
    ∀ n : Nat,
      (wheelUpSeq n).zoomLevel = min 2 ((11/10 : ℚ) ^ n)
      ∧ (wheelDownSeq n).zoomLevel = max (1/2) ((9/10 : ℚ) ^ n) := by
  intro n
  exact ⟨wheelUpSeq_formula n, wheelDownSeq_formula n⟩

theorem Q3_a_ofNat (n : Nat) : (OfNat.ofNat n : Q3).a = (n : ℚ) := rfl

theorem Q3_b_ofNat (n : Nat) : (OfNat.ofNat n : Q3).b = 0 := rfl


theorem handleClick_fold_calls (adj : Pt) :
    ∀ (m : HitMap) (p : ViewState × List String),
      (m.foldl
          (fun acc e =>
            if isPointInPolygon adj e.2.corners then
              ({ acc.1 with selectedZone := some e.1 }, acc.2 ++ [e.1])
            else acc) p).2
        = p.2 ++ (m.filter fun e => isPointInPolygon adj e.2.corners).map Prod.fst := by
  intro m
  induction m with
  | nil => intro p; simp
  | cons e rest ih =>
      intro p
      rw [List.foldl_cons]
      by_cases h : isPointInPolygon adj e.2.corners
      · simp [h, ih, List.filter_cons]
      · simp [h, ih, List.filter_cons]

/-- C1. A non-drag click invokes the zone-selection callback exactly for
the hit regions containing the camera-inverted click point (one invocation
per containing region, in map order; none when no region contains it); in
the concrete scenario — a single zone "A" on farm rectangle (0,0,100,100),
clicked at the screen point over its rendered top-face centroid — the
selection becomes "A" and the callback fires exactly once, with "A". -/
theorem C1_click_selection :
    (∀ (s : ViewState) (c : Pt), s.isDragging = false →
      ((handleClick s c).2
          = ((s.hitAreas.filter fun e =>
              isPointInPolygon (screenToScene s.zoomLevel s.panOffset c) e.2.corners).map Prod.fst)
        ∧ ((handleClick s c).2 ≠ [] ↔
            ∃ e ∈ s.hitAreas,
              isPointInPolygon (screenToScene s.zoomLevel s.panOffset c) e.2.corners = true)))
    ∧ (handleClick stateA centroidClickA).1.selectedZone = some "A"
    ∧ (handleClick stateA centroidClickA).2 = ["A"] := by
  have hgen : ∀ (s : ViewState) (c : Pt), s.isDragging = false →
      ((handleClick s c).2
          = ((s.hitAreas.filter fun e =>
              isPointInPolygon (screenToScene s.zoomLevel s.panOffset c) e.2.corners).map Prod.fst)
        ∧ ((handleClick s c).2 ≠ [] ↔
            ∃ e ∈ s.hitAreas,
              isPointInPolygon (screenToScene s.zoomLevel s.panOffset c) e.2.corners = true)) := by
    intro s c h
    have heq : (handleClick s c).2
        = ((s.hitAreas.filter fun e =>
            isPointInPolygon (screenToScene s.zoomLevel s.panOffset c) e.2.corners).map Prod.fst) := by
      simp only [handleClick, h, Bool.false_eq_true, if_false]
      rw [handleClick_fold_calls]
      simp
    refine ⟨heq, ?_⟩
    rw [heq, ne_eq, List.map_eq_nil_iff, List.filter_eq_nil_iff]
    push_neg
    simp
  refine ⟨hgen, ?_, ?_⟩ <;>
    norm_num [handleClick, stateA, renderFrame, renderHitAreas, initState, mapSet,
      zoneA, draw3DZoneHit, toIsometric, cos30, sin30, quadCentroid, centroidClickA,
      sceneToScreen, screenToScene, isPointInPolygon, edgePairs, edgeTest,
      Q3.ltB, Q3.posB, Q3.inv, Q3.ofRat, Q3.add, Q3.sub, Q3.mul, Q3.div,
      Q3_add_def, Q3_sub_def, Q3_mul_def, Q3_div_def, Q3_ofNat_def,
      Q3_a_ofNat, Q3_b_ofNat, List.foldl, List.zip, Bool.false_eq_true]

theorem C1_click_selection_witness :
    (handleClick stateA centroidClickA).2
        = ((stateA.hitAreas.filter fun e =>
            isPointInPolygon (screenToScene stateA.zoomLevel stateA.panOffset centroidClickA)
              e.2.corners).map Prod.fst)
      ∧ ((handleClick stateA centroidClickA).2 ≠ [] ↔
          ∃ e ∈ stateA.hitAreas,
            isPointInPolygon (screenToScene stateA.zoomLevel stateA.panOffset centroidClickA)
              e.2.corners = true) :=
  C1_click_selection.1 stateA centroidClickA rfl
